/-
Verification of the category-production data pipeline
(`category_production.py`, `category_production_preferences.py`,
`exceptions.py`, `utils.py`).

The pipeline is shallowly embedded: pandas tables become lists of records,
table operations (sort_values, drop_duplicates, groupby/agg, left merge,
boolean filters) become executable list functions, the file system touched
by the cache becomes an explicit state record, and exceptions become an
`Except` result.  Rational numbers stand in for the floating-point columns;
the group means are computed by exact rational arithmetic.
-/
import Mathlib

namespace CatProd

open List

/-! ### Generic list machinery

`dropDupsBy` embeds `DataFrame.drop_duplicates(subset=key, keep='first')`
(and Python's `dict.fromkeys` used by `utils.unique`): it keeps the first
occurrence of each key, in order.  `mergeLeft` embeds
`DataFrame.merge(right, how="left", on=keys)`: each left row is repeated
once per matching right row, or kept once with a null payload when nothing
matches.  `groupbyAgg` embeds `groupby(keys).agg(...).reset_index()`. -/

def dropDupsFrom {α κ : Type} (key : α → κ) [DecidableEq κ] (seen : List κ) :
    List α → List α
  | [] => []
  | x :: xs =>
    if key x ∈ seen then dropDupsFrom key seen xs
    else x :: dropDupsFrom key (key x :: seen) xs

def dropDupsBy {α κ : Type} (key : α → κ) [DecidableEq κ] (l : List α) : List α :=
  dropDupsFrom key [] l

def mergeLeft {L R M : Type} (right : List R) (matchRow : L → R → Bool)
    (comb : L → Option R → M) : List L → List M
  | [] => []
  | l :: ls =>
    (match right.filter (fun r => matchRow l r) with
     | [] => [comb l none]
     | r :: rs => (r :: rs).map (fun x => comb l (some x))) ++
    mergeLeft right matchRow comb ls

def groupbyAgg {R κ β : Type} (key : R → κ) [DecidableEq κ] (agg : List R → β)
    (rows : List R) : List (κ × β) :=
  (dropDupsBy id (rows.map key)).map
    (fun k => (k, agg (rows.filter (fun r => decide (key r = k)))))

/-- Exact running sum of a list of rationals as a numerator/denominator pair,
using only integer arithmetic (so that it evaluates inside the kernel). -/
def ratSumPair (l : List ℚ) : Int × Nat :=
  l.foldr (fun q p => (q.num * p.2 + p.1 * q.den, q.den * p.2)) (0, 1)

/-- Arithmetic mean of a list of rationals, the aggregation behind
pandas `groupby(...).mean()`. -/
def ratMean (l : List ℚ) : ℚ :=
  mkRat (ratSumPair l).1 ((ratSumPair l).2 * l.length)

/-! ### Text normalisation

`normalizeText` embeds `s.str.strip()` followed by `s.str.lower()`: leading
and trailing whitespace characters are removed and ASCII upper-case letters
are mapped to lower case.  The operations act on the character list of the
string so that they evaluate inside the kernel. -/

def isPyWhitespace (c : Char) : Bool :=
  c == ' ' || c == '\t' || c == '\n' || c == '\r' ||
  c == Char.ofNat 11 || c == Char.ofNat 12

def dropLeadingWS : List Char → List Char
  | [] => []
  | c :: cs => if isPyWhitespace c then dropLeadingWS cs else c :: cs

def stripChars (l : List Char) : List Char :=
  (dropLeadingWS (dropLeadingWS l).reverse).reverse

def charLower (c : Char) : Char :=
  if 65 ≤ c.toNat && c.toNat ≤ 90 then Char.ofNat (c.toNat + 32) else c

def normalizeText (s : String) : String :=
  ⟨(stripChars s.data).map charLower⟩

/-! ### Data model

`RawRow` is one row of the master participant CSV
(`1.4_ALL Data & variables.csv`): the index column, `Participant`,
`Trial.no.`, `Rank`, `Category`, `Response`, their sensorimotor variants
`SM_category`/`SM_term`, `ProdFreq`, `MeanRank` and `FRF` (a missing `FRF`
cell is `none`).  `RTRow` is one row of the RT CSV with `Category`,
`Response`, `RT`, `zscore_per_pt`, `NSyll`, `PLD` and `Category.RT.secs`.
`DataRow` is a row of the aggregated table `self.data`: the per-pair columns
plus the computed `Mean.RT`, `Mean.zRT`, `NSyll`, `PLD`, `Category.RT.secs`
columns (absent = `none`) and, keyed by participant id, the
`Participant <i> saw category` and `Participant <i> response hit` boolean
columns as association lists. -/

structure RawRow where
  item : Int
  participant : Int
  trialNo : Int
  rank : Int
  category : String
  response : String
  smCategory : String
  smResponse : String
  prodFreq : Int
  meanRank : ℚ
  frf : Option Int
deriving DecidableEq, Repr

structure RTRow where
  category : String
  response : String
  rt : ℚ
  zscorePerPt : ℚ
  nsyll : ℚ
  pld : ℚ
  categoryRT : ℚ
deriving DecidableEq, Repr

structure DataRow where
  category : String
  response : String
  smCategory : String
  smResponse : String
  prodFreq : Int
  meanRank : ℚ
  frf : Option Int
  meanRT : Option ℚ
  meanZRT : Option ℚ
  nsyll : Option ℚ
  pld : Option ℚ
  categoryRT : Option ℚ
  sawCategory : List (Int × Bool)
  responseHit : List (Int × Bool)
deriving DecidableEq, Repr

/-- The exceptions of the library: `ValueError` from the constructor
argument check, and `CategoryNotFoundError` / `ResponseNotFoundError`
from `exceptions.py`. -/
inductive CPError where
  | invalidArgument : CPError
  | categoryNotFound : CPError
  | responseNotFound : CPError
deriving DecidableEq, Repr

/-- The slice of the file system the cache methods touch: the contents of
the cached-data CSV and of the cache-version sidecar file (`none` =
file does not exist). -/
structure FSState where
  cacheData : Option (List DataRow)
  cacheVersion : Option String
deriving DecidableEq, Repr

/-! ### Orders used by the sorts

Python compares strings lexicographically by code point; pandas
`sort_values(by=[...])` sorts lexicographically on the listed columns.
We realise both through the lexicographic order on `List Char` and on
`Lex` pairs.  The multi-column participant sort goes through pandas'
stable lexsort, so a stable sort embeds it faithfully; the single-column
sort of `responses_for_category` uses the default quicksort, whose tie
order is unspecified — see `sortValuesSpec` there. -/

def strLE (a b : String) : Prop := a.data ≤ b.data

instance decStrLE : DecidableRel strLE := fun a b =>
  inferInstanceAs (Decidable (a.data ≤ b.data))

instance strLETotal : IsTotal String strLE := ⟨fun a b => le_total a.data b.data⟩

instance strLETrans : IsTrans String strLE :=
  ⟨fun _ _ _ h h' => le_trans h h'⟩

/-- Sort key of `sort_values(by=[Category, Response, Participant, Rank])`. -/
def pptSortKey (r : RawRow) :
    Lex (List Char × Lex (List Char × Lex (Int × Int))) :=
  toLex (r.category.data, toLex (r.response.data, toLex (r.participant, r.rank)))

def pptLE (a b : RawRow) : Prop := pptSortKey a ≤ pptSortKey b

instance decPptLE : DecidableRel pptLE := fun a b =>
  inferInstanceAs (Decidable (pptSortKey a ≤ pptSortKey b))

instance pptLETotal : IsTotal RawRow pptLE := ⟨fun a b => le_total _ _⟩

instance pptLETrans : IsTrans RawRow pptLE := ⟨fun _ _ _ h h' => le_trans h h'⟩

/-- Comparison by a numeric sort column, for
`sort_values(by=sort_by, ascending=True)` in `responses_for_category`. -/
def colLE (sortBy : DataRow → ℚ) (a b : DataRow) : Prop := sortBy a ≤ sortBy b

instance decColLE (f : DataRow → ℚ) : DecidableRel (colLE f) := fun a b =>
  inferInstanceAs (Decidable (f a ≤ f b))

instance colLETotal (f : DataRow → ℚ) : IsTotal DataRow (colLE f) :=
  ⟨fun a b => le_total (f a) (f b)⟩

instance colLETrans (f : DataRow → ℚ) : IsTrans DataRow (colLE f) :=
  ⟨fun _ _ _ h h' => le_trans h h'⟩

/-! ### The participant-data processing step (`_process_participant_data`) -/

/-- `participant_data[FRF] = participant_data[FRF].fillna(0).astype(int)`. -/
def fillFRF (r : RawRow) : RawRow := { r with frf := some (r.frf.getD 0) }

/-- Strip whitespace and lower-case the `Category` and `Response` cells. -/
def normalizeRow (r : RawRow) : RawRow :=
  { r with category := normalizeText r.category
           response := normalizeText r.response }

/-- The dedup key of
`drop_duplicates(subset=[Category, Response, Participant], keep='first')`. -/
def pptKey3 (r : RawRow) : String × String × Int :=
  (r.category, r.response, r.participant)

/-- `_process_participant_data`: fill FRF, normalise text, sort by
(category, response, participant, rank), drop duplicate
(category, response, participant) triples keeping the first row. -/
def processParticipantData (raw : List RawRow) : List RawRow :=
  dropDupsBy pptKey3
    (List.insertionSort pptLE ((raw.map fillFRF).map normalizeRow))

/-! ### The collapsed-data processing step (`_process_collapsed_data`) -/

/-- `CategoryProduction.zrt_outliers_limit`. -/
def zrtOutliersLimit : ℚ := 3

def rtKey (r : RTRow) : String × String := (r.category, r.response)

def pairKey (r : RawRow) : String × String := (r.category, r.response)

def dataKey (r : DataRow) : String × String := (r.category, r.response)

/-- A collapsed row before any merge: the per-trial columns
(`Item`, `Participant`, `Trial.no.`, `Rank`) are dropped and the computed
columns do not exist yet. -/
def initDataRow (r : RawRow) : DataRow :=
  { category := r.category
    response := r.response
    smCategory := r.smCategory
    smResponse := r.smResponse
    prodFreq := r.prodFreq
    meanRank := r.meanRank
    frf := r.frf
    meanRT := none
    meanZRT := none
    nsyll := none
    pld := none
    categoryRT := none
    sawCategory := []
    responseHit := [] }

/-- `self.participant_data[self.participant_data[Participant] == participant]`:
the cleaned rows of one participant. -/
def thisPptRows (ppt : List RawRow) (p : Int) : List RawRow :=
  ppt.filter (fun r => decide (r.participant = p))

/-- One iteration of the participant hit-rate loop: left-join the
`saw category` column (grouped `first()` over the participant's rows,
then `fillna(False)`) and the `response hit` column (joined directly
against the participant's rows, then `fillna(False)`). -/
def addHitColumns (ppt : List RawRow) (p : Int) (data : List DataRow) :
    List DataRow :=
  mergeLeft (thisPptRows ppt p)
    (fun l r => decide (r.category = l.category ∧ r.response = l.response))
    (fun l o => { l with responseHit := l.responseHit ++ [(p, o.isSome)] })
    (mergeLeft
      (groupbyAgg (fun r : RawRow => r.category) (fun _ => true)
        (thisPptRows ppt p))
      (fun l r => decide (r.1 = l.category))
      (fun l o =>
        { l with
          sawCategory := l.sawCategory ++ [(p, (o.map Prod.snd).getD false)] })
      data)

/-- The trimmed RT table `central_rt_data`: rows whose z-scored RT lies
within ±`zrt_outliers_limit`. -/
def centralRTRows (rt : List RTRow) : List RTRow :=
  rt.filter (fun r =>
    decide (r.zscorePerPt ≤ zrtOutliersLimit ∧ -zrtOutliersLimit ≤ r.zscorePerPt))

/-- `_process_collapsed_data`: collapse to unique (category, response)
pairs, left-join the grouped mean RT, the grouped mean of the
outlier-trimmed z-scored RT, the grouped first `NSyll` / `PLD` /
`Category.RT.secs` values, then add the per-participant hit columns. -/
def processCollapsedData (ppt : List RawRow) (rt : List RTRow)
    (participants : List Int) : List DataRow :=
  participants.foldl (fun d p => addHitColumns ppt p d)
    (mergeLeft
      (groupbyAgg rtKey (fun rs => (rs.map (·.categoryRT)).headD 0) rt)
      (fun l r => decide (r.1 = (l.category, l.response)))
      (fun l o => { l with categoryRT := o.map Prod.snd })
      (mergeLeft (groupbyAgg rtKey (fun rs => (rs.map (·.pld)).headD 0) rt)
        (fun l r => decide (r.1 = (l.category, l.response)))
        (fun l o => { l with pld := o.map Prod.snd })
        (mergeLeft
          (groupbyAgg rtKey (fun rs => (rs.map (·.nsyll)).headD 0) rt)
          (fun l r => decide (r.1 = (l.category, l.response)))
          (fun l o => { l with nsyll := o.map Prod.snd })
          (mergeLeft
            (groupbyAgg rtKey (fun rs => ratMean (rs.map (·.zscorePerPt)))
              (centralRTRows rt))
            (fun l r => decide (r.1 = (l.category, l.response)))
            (fun l o => { l with meanZRT := o.map Prod.snd })
            (mergeLeft
              (groupbyAgg rtKey (fun rs => ratMean (rs.map (·.rt))) rt)
              (fun l r => decide (r.1 = (l.category, l.response)))
              (fun l o => { l with meanRT := o.map Prod.snd })
              ((dropDupsBy pairKey ppt).map initDataRow))))))

/-! ### The cache methods -/

/-- `_could_load_cache`: the cached data file exists. -/
def couldLoadCache (s : FSState) : Bool := s.cacheData.isSome

/-- `_saved_cache_version_valid`: read the version file and compare with
the current fingerprint; a missing file (`FileNotFoundError`) yields
`False`. -/
def savedCacheVersionValid (s : FSState) (fp : String) : Bool :=
  match s.cacheVersion with
  | none => false
  | some v => decide (v = fp)

/-- `_clear_saved_cache`: delete both cache files, but only when the cached
data file exists. -/
def clearSavedCache (s : FSState) : FSState :=
  if couldLoadCache s then { cacheData := none, cacheVersion := none } else s

/-- `_save_cache`: write the data file and the version sidecar. -/
def saveCache (s : FSState) (d : List DataRow) (fp : String) : FSState :=
  { cacheData := some d, cacheVersion := some fp }

/-- `_load_from_cache`: read the cached data file (only called when it
exists). -/
def loadFromCache (s : FSState) : List DataRow := s.cacheData.getD []

/-- `tryLoad` of the specification: the cache-reading behaviour of
`__init__` — clear the cache if the stored version does not match the
current fingerprint, then load the cached table if the data file (still)
exists. -/
def tryLoad (s : FSState) (fp : String) : Option (List DataRow) × FSState :=
  let s1 := if savedCacheVersionValid s fp then s else clearSavedCache s
  if couldLoadCache s1 then (s1.cacheData, s1) else (none, s1)

/-! ### Construction (`__init__`) and the query facade -/

structure CPResult where
  data : List DataRow
  participantData : List RawRow
  participants : List Int
  categoryLabels : List String
  categoryLabelsSensorimotor : List String
  responseLabels : List String
  responseLabelsSensorimotor : List String
deriving DecidableEq, Repr

/-- `sorted({... for ... in column})`: distinct values, sorted ascending. -/
def sortedLabels (l : List String) : List String :=
  List.insertionSort strLE (dropDupsBy id l)

/-- `CategoryProduction.__init__`, with the raw CSV contents, the current
cache fingerprint and the file-system state passed explicitly.  Returns
the constructed object (or the raised error) together with the
file-system state after construction. -/
def cpInit (fp : String) (minimumProductionFrequency : Int) (useCache : Bool)
    (raw : List RawRow) (rt : List RTRow) (s : FSState) :
    Except CPError CPResult × FSState :=
  let s1 := if savedCacheVersionValid s fp then s else clearSavedCache s
  if minimumProductionFrequency < 1 then (.error .invalidArgument, s1)
  else
    let ppt := processParticipantData raw
    let participants := dropDupsBy id (ppt.map (·.participant))
    let pair :=
      if !useCache || !couldLoadCache s1 then
        let d := processCollapsedData ppt rt participants
        (d, saveCache s1 d fp)
      else (loadFromCache s1, s1)
    let dataF := pair.1.filter
      (fun r => decide (minimumProductionFrequency ≤ r.prodFreq))
    let pptF := ppt.filter
      (fun r => decide (minimumProductionFrequency ≤ r.prodFreq))
    (.ok
      { data := dataF
        participantData := pptF
        participants := participants
        categoryLabels := sortedLabels (dataF.map (·.category))
        categoryLabelsSensorimotor := sortedLabels (dataF.map (·.smCategory))
        responseLabels := sortedLabels (dataF.map (·.response))
        responseLabelsSensorimotor := sortedLabels (dataF.map (·.smResponse)) },
      pair.2)

/-- `utils.unique`: `list(dict.fromkeys(ls))` — first occurrences, in
order. -/
def unique (ls : List String) : List String := dropDupsBy id ls

/-- The contract of `filtered_data.sort_values(by=sort_by, ascending=True)`
with the default kind (quicksort): the result is a permutation of the input
rows that is sorted ascending by the column.  The relative order of rows
with equal column values is not part of the contract. -/
def sortValuesSpec (sortBy : DataRow → ℚ) (l out : List DataRow) : Prop :=
  out.Pairwise (fun a b => sortBy a ≤ sortBy b) ∧ out.Perm l

/-- The rows of `filtered_data` in `responses_for_category`: restricted to
the requested category (sensorimotor column if requested) and sorted
ascending by the sort column.  The program's single-column
`sort_values` guarantees only `sortValuesSpec` (tie order unspecified);
the executable model must choose one admissible output and uses an
insertion sort, but no claim theorem relies on the chosen tie order. -/
def filteredSortedRows (data : List DataRow) (category : String)
    (sortBy : DataRow → ℚ) (useSensorimotor : Bool) : List DataRow :=
  List.insertionSort (colLE sortBy) (data.filter (fun r =>
    decide ((if useSensorimotor then r.smCategory else r.category) = category)))

/-- Projection of the response column (sensorimotor variant if
requested). -/
def projectResponse (useSensorimotor : Bool) (r : DataRow) : String :=
  if useSensorimotor then r.smResponse else r.response

def baseResponses (data : List DataRow) (category : String)
    (sortBy : DataRow → ℚ) (useSensorimotor : Bool) : List String :=
  (filteredSortedRows data category sortBy useSensorimotor).map
    (projectResponse useSensorimotor)

/-- `[r for r in filtered_data if " " not in r]` when `single_word_only`
is set. -/
def swoResponses (data : List DataRow) (category : String)
    (singleWordOnly : Bool) (sortBy : DataRow → ℚ)
    (useSensorimotor : Bool) : List String :=
  if singleWordOnly then
    (baseResponses data category sortBy useSensorimotor).filter
      (fun s => !s.data.contains ' ')
  else baseResponses data category sortBy useSensorimotor

/-- The body of `responses_for_category` after the category-existence
check: filter to the category, sort ascending by the sort column, project
the response column, optionally keep single-word responses only,
optionally (sensorimotor only) deduplicate. -/
def responsesList (data : List DataRow) (category : String)
    (singleWordOnly : Bool) (sortBy : DataRow → ℚ)
    (useSensorimotor forceUnique : Bool) : List String :=
  if useSensorimotor && forceUnique then
    unique (swoResponses data category singleWordOnly sortBy useSensorimotor)
  else swoResponses data category singleWordOnly sortBy useSensorimotor

/-- `responses_for_category`. -/
def responsesForCategory (cp : CPResult) (category : String)
    (singleWordOnly : Bool) (sortBy : DataRow → ℚ)
    (useSensorimotor forceUnique : Bool) : Except CPError (List String) :=
  if useSensorimotor then
    if category ∈ cp.categoryLabelsSensorimotor then
      .ok (responsesList cp.data category singleWordOnly sortBy
        useSensorimotor forceUnique)
    else .error .categoryNotFound
  else
    if category ∈ cp.categoryLabels then
      .ok (responsesList cp.data category singleWordOnly sortBy
        useSensorimotor forceUnique)
    else .error .categoryNotFound

/-- `Preferences.specific_substitutions` from
`category_production_preferences.py`. -/
def specificSubstitutions : List (String × String) :=
  [("bobsledging", "bobsledding"),
   ("dodgeball", "dodge-ball"),
   ("fifty-seven", "57"),
   ("gokart", "go-kart"),
   ("jetskiing", "jet-skiing"),
   ("micrometre", "micrometer"),
   ("slalem", "slalom"),
   ("stepparents", "step-parents"),
   ("yogurt", "yoghurt")]
/-! ### Derived description of the aggregated table

`groupLookup` is the value a left-join against a grouped table attaches to
a left row with join key `k`.  `collapsedRow` is the closed form of the row
the aggregation produces for the representative raw row `r` of a
(category, response) pair; `processCollapsedData` is proved equal to
mapping it over the collapsed pairs. -/

def groupLookup {R κ β : Type} [DecidableEq κ] (key : R → κ) (agg : List R → β)
    (rows : List R) (k : κ) : Option β :=
  ((groupbyAgg key agg rows).filter (fun kr => decide (kr.1 = k))).head?.map
    Prod.snd

def collapsedRow (ppt : List RawRow) (rt : List RTRow) (participants : List Int)
    (r : RawRow) : DataRow :=
  { category := r.category
    response := r.response
    smCategory := r.smCategory
    smResponse := r.smResponse
    prodFreq := r.prodFreq
    meanRank := r.meanRank
    frf := r.frf
    meanRT := groupLookup rtKey (fun rs => ratMean (rs.map (·.rt))) rt
      (r.category, r.response)
    meanZRT := groupLookup rtKey (fun rs => ratMean (rs.map (·.zscorePerPt)))
      (centralRTRows rt) (r.category, r.response)
    nsyll := groupLookup rtKey (fun rs => (rs.map (·.nsyll)).headD 0) rt
      (r.category, r.response)
    pld := groupLookup rtKey (fun rs => (rs.map (·.pld)).headD 0) rt
      (r.category, r.response)
    categoryRT := groupLookup rtKey (fun rs => (rs.map (·.categoryRT)).headD 0)
      rt (r.category, r.response)
    sawCategory := participants.map (fun p =>
      (p, decide (∃ x ∈ ppt, x.participant = p ∧ x.category = r.category)))
    responseHit := participants.map (fun p =>
      (p, decide (∃ x ∈ ppt, x.participant = p ∧ x.category = r.category ∧
        x.response = r.response))) }

/-- `self.participants`: the distinct participant ids of the cleaned
participant table, in first-seen order. -/
def participantsOf (raw : List RawRow) : List Int :=
  dropDupsBy id ((processParticipantData raw).map (·.participant))

/-- The aggregated table a fresh (cache-less) construction computes,
before the production-frequency filter. -/
def fullData (raw : List RawRow) (rt : List RTRow) : List DataRow :=
  processCollapsedData (processParticipantData raw) rt (participantsOf raw)

/-- The object a fresh construction with minimum production frequency `m`
returns. -/
def freshResult (m : Int) (raw : List RawRow) (rt : List RTRow) : CPResult :=
  { data := (fullData raw rt).filter (fun r => decide (m ≤ r.prodFreq))
    participantData := (processParticipantData raw).filter
      (fun r => decide (m ≤ r.prodFreq))
    participants := participantsOf raw
    categoryLabels := sortedLabels
      (((fullData raw rt).filter (fun r => decide (m ≤ r.prodFreq))).map
        (·.category))
    categoryLabelsSensorimotor := sortedLabels
      (((fullData raw rt).filter (fun r => decide (m ≤ r.prodFreq))).map
        (·.smCategory))
    responseLabels := sortedLabels
      (((fullData raw rt).filter (fun r => decide (m ≤ r.prodFreq))).map
        (·.response))
    responseLabelsSensorimotor := sortedLabels
      (((fullData raw rt).filter (fun r => decide (m ≤ r.prodFreq))).map
        (·.smResponse)) }

instance : Inhabited DataRow :=
  ⟨⟨"", "", "", "", 0, 0, none, none, none, none, none, none, [], []⟩⟩

instance : Inhabited CPResult := ⟨⟨[], [], [], [], [], [], []⟩⟩

/-! ### Concrete data used to exercise the theorems

A small master table: participant 1 answers the category
`" Fruit "`/`"fruit"` with `apple` twice (ranks 1 and 2 — a duplicate
triple), with `kiwi` (production frequency 1, below the default threshold),
participants 2 and 7 answer `apple`, and participant 8 answers `banana`.
The RT table carries the z-scores 1/2, −1/2, 4, −4 for (fruit, apple) —
the two outliers must be trimmed — and a single outlier z-score for
(fruit, banana). -/

def testRaw : List RawRow :=
  [⟨1, 1, 1, 1, " Fruit ", "Apple", "fruit sm", "apple sm", 3, 1, none⟩,
   ⟨2, 1, 2, 2, "fruit", "apple", "fruit sm", "apple sm", 3, 1, some 2⟩,
   ⟨3, 7, 1, 1, "fruit", "apple", "fruit sm", "apple sm", 3, 1, some 1⟩,
   ⟨4, 8, 1, 1, "fruit", "banana", "fruit sm", "banana sm", 2, 2, some 0⟩,
   ⟨5, 2, 1, 1, "fruit", "apple", "fruit sm", "apple sm", 3, 1, some 1⟩,
   ⟨6, 1, 3, 3, "fruit", "kiwi", "fruit sm", "kiwi sm", 1, 3, none⟩]

def testRT : List RTRow :=
  [⟨"fruit", "apple", 1, mkRat 1 2, 2, 3, 5⟩,
   ⟨"fruit", "apple", 2, mkRat (-1) 2, 2, 3, 5⟩,
   ⟨"fruit", "apple", 3, 4, 2, 3, 5⟩,
   ⟨"fruit", "apple", 4, -4, 2, 3, 5⟩,
   ⟨"fruit", "banana", 10, 4, 1, 2, 5⟩]

/-- The object built by a fresh (cache-less) construction over the test
data with the default minimum production frequency 2. -/
def testRes : CPResult :=
  ((cpInit "v" 2 false testRaw testRT ⟨none, none⟩).1.toOption).getD default

/-- The z-scored reaction times of the RT rows matching a
(category, response) pair whose absolute value does not exceed the outlier
threshold 3 — the inputs the specification says the Mean zRT is the
arithmetic mean of. -/
def trimmedZScores (rt : List RTRow) (c resp : String) : List ℚ :=
  (rt.filter (fun x =>
    decide (x.category = c ∧ x.response = resp ∧ |x.zscorePerPt| ≤ 3))).map
    (·.zscorePerPt)

/-- The (fruit, apple) row of the test table. -/
def appleRow : DataRow := testRes.data.getD 0 default

/-- The (fruit, banana) row of the test table. -/
def bananaRow : DataRow := testRes.data.getD 1 default

/-- The (fruit, kiwi) row of the aggregated table before the
production-frequency filter (its production frequency 1 is below the
threshold 2, so it is excluded from the final table). -/
def kiwiRow : DataRow := (fullData testRaw testRT).getD 2 default

/-- The cleaned form of the first test row: `" Fruit "`/`"Apple"` trimmed
and lower-cased, missing first-rank frequency filled with 0. -/
def keptRow : RawRow :=
  ⟨1, 1, 1, 1, "fruit", "apple", "fruit sm", "apple sm", 3, 1, some 0⟩

/-- The cleaned form of the second test row: participant 1's rank-2
duplicate of (fruit, apple). -/
def dupRow : RawRow :=
  ⟨2, 1, 2, 2, "fruit", "apple", "fruit sm", "apple sm", 3, 1, some 2⟩

/-- The linguistic response list for category `fruit` over the test
data. -/
def testResponses : List String :=
  (responsesForCategory testRes "fruit" false (·.meanRank) false
    false).toOption.getD []

/-- The sensorimotor response list for `fruit sm` with `force_unique`
set. -/
def testResponsesSM : List String :=
  (responsesForCategory testRes "fruit sm" false (·.meanRank) true
    true).toOption.getD []

/-- The sensorimotor response list for `fruit sm` without
deduplication. -/
def testResponsesSMND : List String :=
  (responsesForCategory testRes "fruit sm" false (·.meanRank) true
    false).toOption.getD []

/-- A table row with sort value (mean rank) 1 — one of a pair of tied
rows used to show the sort contract does not determine tie order. -/
def tieRowA : DataRow :=
  ⟨"sport", "dodgeball", "sport sm", "dodgeball sm", 2, 1, none, none, none,
   none, none, none, [], []⟩

/-- A second, distinct table row with the same sort value 1. -/
def tieRowB : DataRow :=
  ⟨"sport", "football", "sport sm", "football sm", 2, 1, none, none, none,
   none, none, none, [], []⟩

/-! ## Lemmas -/
theorem ratSumPair_den_ne (l : List ℚ) : (ratSumPair l).2 ≠ 0 := by
  induction l with
  | nil => simp [ratSumPair]
  | cons q t ih =>
    simp only [ratSumPair, List.foldr_cons] at *
    exact Nat.mul_ne_zero q.den_nz ih

theorem ratSumPair_eq (l : List ℚ) :
    ((ratSumPair l).1 : ℚ) / ((ratSumPair l).2 : ℚ) = l.sum := by
  induction l with
  | nil => simp [ratSumPair]
  | cons q t ih =>
    have hd : (((ratSumPair t).2 : ℚ)) ≠ 0 := by
      exact_mod_cast ratSumPair_den_ne t
    have hq : ((q.den : ℚ)) ≠ 0 := by exact_mod_cast q.den_nz
    simp only [ratSumPair, List.foldr_cons, List.sum_cons] at *
    rw [← ih]
    conv_rhs => rw [← Rat.num_div_den q]
    rw [div_add_div _ _ hq hd]
    push_cast
    ring

/-- The executable mean agrees with the textbook arithmetic mean. -/
theorem ratMean_eq (l : List ℚ) : ratMean l = l.sum / l.length := by
  rw [ratMean, Rat.mkRat_eq_divInt, Rat.divInt_eq_div]
  push_cast
  rw [div_mul_eq_div_div, ratSumPair_eq]

/-! ### Properties of `dropDupsBy` -/

theorem dropDupsFrom_sublist {α κ : Type} (key : α → κ) [DecidableEq κ]
    (seen : List κ) (l : List α) : dropDupsFrom key seen l <+ l := by
  induction l generalizing seen with
  | nil => simp [dropDupsFrom]
  | cons x xs ih =>
    rw [dropDupsFrom]
    by_cases h : key x ∈ seen
    · simp only [if_pos h]
      exact (ih seen).trans (List.sublist_cons_self x xs)
    · simp only [if_neg h]
      exact (ih (key x :: seen)).cons₂ x

theorem mem_of_mem_dropDupsFrom {α κ : Type} {key : α → κ} [DecidableEq κ]
    {seen : List κ} {l : List α} {a : α} (h : a ∈ dropDupsFrom key seen l) :
    a ∈ l :=
  (dropDupsFrom_sublist key seen l).mem h

theorem key_not_seen_of_mem_dropDupsFrom {α κ : Type} {key : α → κ}
    [DecidableEq κ] {seen : List κ} {l : List α} {a : α}
    (h : a ∈ dropDupsFrom key seen l) : key a ∉ seen := by
  induction l generalizing seen with
  | nil => simp [dropDupsFrom] at h
  | cons x xs ih =>
    rw [dropDupsFrom] at h
    by_cases hx : key x ∈ seen
    · rw [if_pos hx] at h
      exact ih h
    · rw [if_neg hx] at h
      rcases List.mem_cons.mp h with rfl | h
      · exact hx
      · intro hs
        exact ih h (List.mem_cons_of_mem _ hs)

theorem pairwise_dropDupsFrom {α κ : Type} (key : α → κ) [DecidableEq κ]
    (seen : List κ) (l : List α) :
    (dropDupsFrom key seen l).Pairwise (fun a b => key a ≠ key b) := by
  induction l generalizing seen with
  | nil => simp [dropDupsFrom]
  | cons x xs ih =>
    rw [dropDupsFrom]
    by_cases hx : key x ∈ seen
    · simpa [if_pos hx] using ih seen
    · rw [if_neg hx]
      refine List.pairwise_cons.mpr ⟨?_, ih (key x :: seen)⟩
      intro b hb hkey
      exact key_not_seen_of_mem_dropDupsFrom hb (by simp [hkey])

theorem exists_mem_dropDupsFrom {α κ : Type} {key : α → κ} [DecidableEq κ]
    {seen : List κ} {l : List α} {a : α} (ha : a ∈ l) (hu : key a ∉ seen) :
    ∃ b ∈ dropDupsFrom key seen l, key b = key a := by
  induction l generalizing seen with
  | nil => simp at ha
  | cons x xs ih =>
    rw [dropDupsFrom]
    by_cases hx : key x ∈ seen
    · rw [if_pos hx]
      rcases List.mem_cons.mp ha with rfl | ha
      · exact absurd hx hu
      · exact ih ha hu
    · rw [if_neg hx]
      rcases List.mem_cons.mp ha with rfl | ha
      · exact ⟨a, List.mem_cons_self a _, rfl⟩
      · by_cases hk : key a = key x
        · exact ⟨x, List.mem_cons_self x _, hk.symm⟩
        · obtain ⟨b, hb, hkb⟩ := ih ha (by
            intro hmem
            rcases List.mem_cons.mp hmem with h | h
            · exact hk h
            · exact hu h)
          exact ⟨b, List.mem_cons_of_mem _ hb, hkb⟩

theorem first_occ_dropDupsFrom {α κ : Type} {key : α → κ} [DecidableEq κ]
    {R : α → α → Prop} {seen : List κ} {l : List α}
    (hp : l.Pairwise R) {a : α} (ha : a ∈ dropDupsFrom key seen l)
    {b : α} (hb : b ∈ l) (hk : key b = key a) : a = b ∨ R a b := by
  induction l generalizing seen with
  | nil => simp [dropDupsFrom] at ha
  | cons x xs ih =>
    obtain ⟨hx1, hx2⟩ := List.pairwise_cons.mp hp
    rw [dropDupsFrom] at ha
    by_cases hx : key x ∈ seen
    · rw [if_pos hx] at ha
      rcases List.mem_cons.mp hb with rfl | hb
      · exact absurd (hk ▸ hx) (key_not_seen_of_mem_dropDupsFrom ha)
      · exact ih hx2 ha hb
    · rw [if_neg hx] at ha
      rcases List.mem_cons.mp ha with rfl | ha
      · rcases List.mem_cons.mp hb with rfl | hb
        · exact Or.inl rfl
        · exact Or.inr (hx1 b hb)
      · rcases List.mem_cons.mp hb with rfl | hb
        · have := key_not_seen_of_mem_dropDupsFrom ha
          simp [hk] at this
        · exact ih hx2 ha hb

theorem dropDupsBy_sublist {α κ : Type} (key : α → κ) [DecidableEq κ]
    (l : List α) : dropDupsBy key l <+ l :=
  dropDupsFrom_sublist key [] l

theorem pairwise_dropDupsBy {α κ : Type} (key : α → κ) [DecidableEq κ]
    (l : List α) : (dropDupsBy key l).Pairwise (fun a b => key a ≠ key b) :=
  pairwise_dropDupsFrom key [] l

theorem exists_mem_dropDupsBy {α κ : Type} {key : α → κ} [DecidableEq κ]
    {l : List α} {a : α} (ha : a ∈ l) :
    ∃ b ∈ dropDupsBy key l, key b = key a :=
  exists_mem_dropDupsFrom ha (by simp)

theorem first_occ_dropDupsBy {α κ : Type} {key : α → κ} [DecidableEq κ]
    {R : α → α → Prop} {l : List α} (hp : l.Pairwise R) {a : α}
    (ha : a ∈ dropDupsBy key l) {b : α} (hb : b ∈ l) (hk : key b = key a) :
    a = b ∨ R a b :=
  first_occ_dropDupsFrom hp ha hb hk

/-! ### Properties of `mergeLeft` and `groupbyAgg` -/

theorem mem_mergeLeft {L R M : Type} {right : List R} {matchRow : L → R → Bool}
    {comb : L → Option R → M} {left : List L} {m : M}
    (hm : m ∈ mergeLeft right matchRow comb left) :
    ∃ l ∈ left, ∃ o, m = comb l o := by
  induction left with
  | nil => simp [mergeLeft] at hm
  | cons l ls ih =>
    rw [mergeLeft] at hm
    rcases List.mem_append.mp hm with h | h
    · split at h
      · exact ⟨l, List.mem_cons_self l _, none, by simpa using h⟩
      · obtain ⟨x, _, rfl⟩ := List.mem_map.mp h
        exact ⟨l, List.mem_cons_self l _, some x, rfl⟩
    · obtain ⟨l', hl', o, rfl⟩ := ih h
      exact ⟨l', List.mem_cons_of_mem _ hl', o, rfl⟩

theorem mergeLeft_eq_map {L R M : Type} {right : List R} {matchRow : L → R → Bool}
    {comb : L → Option R → M} (left : List L)
    (h : ∀ l, (right.filter (fun r => matchRow l r)).length ≤ 1) :
    mergeLeft right matchRow comb left =
      left.map (fun l => comb l ((right.filter (fun r => matchRow l r)).head?)) := by
  induction left with
  | nil => rfl
  | cons l ls ih =>
    rw [mergeLeft, ih, List.map_cons]
    have hl := h l
    cases hfil : right.filter (fun r => matchRow l r) with
    | nil => simp [hfil]
    | cons r rs =>
      rw [hfil] at hl
      cases rs with
      | nil => simp [hfil]
      | cons a b => simp at hl

theorem filter_length_le_one {α κ : Type} {f : α → κ} {l : List α}
    (hp : l.Pairwise (fun a b => f a ≠ f b)) (p : α → Bool)
    (hcoh : ∀ a b, p a = true → p b = true → f a = f b) :
    (l.filter p).length ≤ 1 := by
  induction l with
  | nil => simp
  | cons x xs ih =>
    obtain ⟨h1, h2⟩ := List.pairwise_cons.mp hp
    rw [List.filter_cons]
    by_cases hx : p x = true
    · have hnil : xs.filter p = [] := by
        rw [List.filter_eq_nil_iff]
        intro a ha hpa
        exact h1 a ha (hcoh x a hx hpa)
      simp [hx, hnil]
    · simp only [hx, Bool.false_eq_true, if_false]
      exact ih h2

theorem groupbyAgg_pairwise {R κ β : Type} (key : R → κ) [DecidableEq κ]
    (agg : List R → β) (rows : List R) :
    (groupbyAgg key agg rows).Pairwise (fun a b => a.1 ≠ b.1) := by
  unfold groupbyAgg
  rw [List.pairwise_map]
  exact pairwise_dropDupsBy id (rows.map key)

theorem groupbyAgg_filter_eq_nil {R κ β : Type} {key : R → κ} [DecidableEq κ]
    {agg : List R → β} {rows : List R} {k : κ}
    (h : ¬ ∃ r ∈ rows, key r = k) :
    (groupbyAgg key agg rows).filter (fun kr => decide (kr.1 = k)) = [] := by
  rw [List.filter_eq_nil_iff]
  intro kb hkb
  unfold groupbyAgg at hkb
  obtain ⟨k', hk', rfl⟩ := List.mem_map.mp hkb
  simp only [decide_eq_true_eq]
  intro hkk
  have hmem : k' ∈ rows.map key := mem_of_mem_dropDupsFrom hk'
  obtain ⟨r, hr, hrk⟩ := List.mem_map.mp hmem
  exact h ⟨r, hr, by rw [hrk]; exact hkk⟩

theorem filter_fst_map_eq_single {κ β : Type} [DecidableEq κ] {ks : List κ}
    (hnd : ks.Pairwise (fun a b => a ≠ b)) (g : κ → β) {k : κ} (hk : k ∈ ks) :
    (ks.map (fun x => (x, g x))).filter (fun kb => decide (kb.1 = k)) =
      [(k, g k)] := by
  induction ks with
  | nil => simp at hk
  | cons a t ih =>
    obtain ⟨h1, h2⟩ := List.pairwise_cons.mp hnd
    rw [List.map_cons, List.filter_cons]
    rcases List.mem_cons.mp hk with rfl | hk
    · have hnil : (t.map (fun x => (x, g x))).filter
          (fun kb => decide (kb.1 = k)) = [] := by
        rw [List.filter_eq_nil_iff]
        intro kb hkb
        obtain ⟨k', hk', rfl⟩ := List.mem_map.mp hkb
        simp only [decide_eq_true_eq]
        exact fun hkk => (h1 k' hk') hkk.symm
      simp [hnil]
    · have hne : ¬ ((a, g a).1 = k) := fun hak => (h1 k hk) hak
      simp only [decide_eq_false hne, Bool.false_eq_true, if_false]
      exact ih h2 hk

theorem groupbyAgg_filter_eq_single {R κ β : Type} {key : R → κ} [DecidableEq κ]
    {agg : List R → β} {rows : List R} {k : κ}
    (h : ∃ r ∈ rows, key r = k) :
    (groupbyAgg key agg rows).filter (fun kr => decide (kr.1 = k)) =
      [(k, agg (rows.filter (fun r => decide (key r = k))))] := by
  obtain ⟨r, hr, hrk⟩ := h
  have hmem : k ∈ rows.map key := List.mem_map.mpr ⟨r, hr, hrk⟩
  obtain ⟨b, hb, hbk⟩ := @exists_mem_dropDupsBy _ _ id _ _ _ hmem
  have hkmem : k ∈ dropDupsBy id (rows.map key) := by
    have hbId : b = k := hbk
    exact hbId ▸ hb
  unfold groupbyAgg
  exact filter_fst_map_eq_single (pairwise_dropDupsBy id (rows.map key)) _ hkmem

theorem groupbyAgg_filter_length_le_one {R κ β : Type} {key : R → κ}
    [DecidableEq κ] {agg : List R → β} {rows : List R} {k : κ} :
    ((groupbyAgg key agg rows).filter (fun kr => decide (kr.1 = k))).length ≤ 1 := by
  refine filter_length_le_one (groupbyAgg_pairwise key agg rows) _ ?_
  intro a b ha hb
  rw [decide_eq_true_eq] at ha hb
  rw [ha, hb]

theorem pptLE_rank_le {a b : RawRow} (hle : pptLE a b)
    (hc : a.category = b.category) (hr : a.response = b.response)
    (hp : a.participant = b.participant) : a.rank ≤ b.rank := by
  unfold pptLE pptSortKey at hle
  rcases (Prod.Lex.le_iff _ _).mp hle with h | ⟨-, h⟩
  · rw [hc] at h; exact absurd h (lt_irrefl _)
  · rcases (Prod.Lex.le_iff _ _).mp h with h' | ⟨-, h'⟩
    · rw [hr] at h'; exact absurd h' (lt_irrefl _)
    · rcases (Prod.Lex.le_iff _ _).mp h' with h'' | ⟨-, h''⟩
      · rw [hp] at h''; exact absurd h'' (lt_irrefl _)
      · exact h''

/-! ### The cleaned participant table -/

theorem processParticipantData_pairwise (raw : List RawRow) :
    (processParticipantData raw).Pairwise (fun a b => pptKey3 a ≠ pptKey3 b) :=
  pairwise_dropDupsBy pptKey3 _

theorem processParticipantData_mem {raw : List RawRow} {r : RawRow}
    (h : r ∈ processParticipantData raw) :
    r ∈ (raw.map fillFRF).map normalizeRow := by
  have h1 : r ∈ List.insertionSort pptLE ((raw.map fillFRF).map normalizeRow) :=
    (dropDupsBy_sublist pptKey3 _).mem h
  exact (List.mem_insertionSort pptLE).mp h1

theorem processParticipantData_complete {raw : List RawRow} {r' : RawRow}
    (h : r' ∈ (raw.map fillFRF).map normalizeRow) :
    ∃ r ∈ processParticipantData raw, pptKey3 r = pptKey3 r' :=
  exists_mem_dropDupsBy ((List.mem_insertionSort pptLE).mpr h)

theorem processParticipantData_minRank {raw : List RawRow} {r r' : RawRow}
    (hr : r ∈ processParticipantData raw)
    (hr' : r' ∈ (raw.map fillFRF).map normalizeRow)
    (hk : pptKey3 r' = pptKey3 r) : r.rank ≤ r'.rank := by
  have hs : (List.insertionSort pptLE ((raw.map fillFRF).map normalizeRow)).Pairwise
      pptLE := List.sorted_insertionSort pptLE _
  have hr'' : r' ∈ List.insertionSort pptLE ((raw.map fillFRF).map normalizeRow) :=
    (List.mem_insertionSort pptLE).mpr hr'
  rcases first_occ_dropDupsBy hs hr hr'' hk with rfl | hle
  · exact le_refl _
  · have h1 : r.category = r'.category := congrArg (·.1) hk.symm
    have h2 : r.response = r'.response := congrArg (·.2.1) hk.symm
    have h3 : r.participant = r'.participant := congrArg (·.2.2) hk.symm
    exact pptLE_rank_le hle h1 h2 h3

/-! ### The hit-rate annotation loop -/

theorem thisPpt_participant {ppt : List RawRow} {p : Int} {r : RawRow}
    (h : r ∈ thisPptRows ppt p) : r ∈ ppt ∧ r.participant = p := by
  obtain ⟨h1, h2⟩ := List.mem_filter.mp h
  exact ⟨h1, of_decide_eq_true h2⟩

theorem mem_thisPptRows {ppt : List RawRow} {p : Int} {r : RawRow}
    (h1 : r ∈ ppt) (h2 : r.participant = p) : r ∈ thisPptRows ppt p :=
  List.mem_filter.mpr ⟨h1, decide_eq_true h2⟩

theorem thisPpt_pairwise_pairKey {ppt : List RawRow}
    (hppt : ppt.Pairwise (fun a b => pptKey3 a ≠ pptKey3 b)) (p : Int) :
    (thisPptRows ppt p).Pairwise (fun a b => pairKey a ≠ pairKey b) := by
  have h1 : (thisPptRows ppt p).Pairwise
      (fun a b => pptKey3 a ≠ pptKey3 b) := hppt.filter _
  refine h1.imp_of_mem ?_
  intro a b ha hb hne hkey
  have hpa : a.participant = p := (thisPpt_participant ha).2
  have hpb : b.participant = p := (thisPpt_participant hb).2
  have hc : a.category = b.category := congrArg Prod.fst hkey
  have hr : a.response = b.response := congrArg Prod.snd hkey
  apply hne
  unfold pptKey3
  rw [hc, hr, hpa, hpb]

theorem thisPpt_filter_length_le_one {ppt : List RawRow}
    (hppt : ppt.Pairwise (fun a b => pptKey3 a ≠ pptKey3 b)) (p : Int)
    (c resp : String) :
    ((thisPptRows ppt p).filter
      (fun r => decide (r.category = c ∧ r.response = resp))).length ≤ 1 := by
  refine @filter_length_le_one _ _ pairKey _ (thisPpt_pairwise_pairKey hppt p) _ ?_
  intro a b ha hb
  rw [decide_eq_true_eq] at ha hb
  unfold pairKey
  rw [ha.1, ha.2, hb.1, hb.2]

theorem head_filter_isSome_iff {α : Type} (p : α → Bool) (l : List α) :
    (l.filter p).head?.isSome = true ↔ ∃ a ∈ l, p a = true := by
  rw [List.head?_isSome]
  constructor
  · intro h
    rcases hne : l.filter p with _ | ⟨a, t⟩
    · exact absurd hne h
    · have : a ∈ l.filter p := by rw [hne]; exact List.mem_cons_self a t
      obtain ⟨ha, hpa⟩ := List.mem_filter.mp this
      exact ⟨a, ha, hpa⟩
  · rintro ⟨a, ha, hpa⟩ hnil
    have : a ∈ l.filter p := List.mem_filter.mpr ⟨ha, hpa⟩
    rw [hnil] at this
    exact absurd this (List.not_mem_nil a)

theorem addHitColumns_eq_map {ppt : List RawRow}
    (hppt : ppt.Pairwise (fun a b => pptKey3 a ≠ pptKey3 b)) (p : Int)
    (data : List DataRow) :
    addHitColumns ppt p data = data.map (fun l =>
      { l with
        sawCategory := l.sawCategory ++
          [(p, decide (∃ x ∈ ppt, x.participant = p ∧ x.category = l.category))]
        responseHit := l.responseHit ++
          [(p, decide (∃ x ∈ ppt, x.participant = p ∧ x.category = l.category ∧
            x.response = l.response))] }) := by
  unfold addHitColumns
  rw [mergeLeft_eq_map data (fun l => groupbyAgg_filter_length_le_one),
    mergeLeft_eq_map _ (fun l => thisPpt_filter_length_le_one hppt p _ _),
    List.map_map]
  refine List.map_congr_left ?_
  intro l hl
  have hsaw : ((((groupbyAgg (fun r : RawRow => r.category) (fun _ => true)
        (thisPptRows ppt p)).filter
        (fun kr => decide (kr.1 = l.category))).head?.map Prod.snd).getD false) =
      decide (∃ x ∈ ppt, x.participant = p ∧ x.category = l.category) := by
    by_cases hex : ∃ x ∈ thisPptRows ppt p, x.category = l.category
    · rw [groupbyAgg_filter_eq_single hex]
      have hex' : ∃ x ∈ ppt, x.participant = p ∧ x.category = l.category := by
        obtain ⟨x, hx, hcx⟩ := hex
        obtain ⟨hx1, hx2⟩ := thisPpt_participant hx
        exact ⟨x, hx1, hx2, hcx⟩
      rw [decide_eq_true hex']
      rfl
    · rw [groupbyAgg_filter_eq_nil hex]
      have hex' : ¬ ∃ x ∈ ppt, x.participant = p ∧ x.category = l.category := by
        rintro ⟨x, hx, hpx, hcx⟩
        exact hex ⟨x, mem_thisPptRows hx hpx, hcx⟩
      rw [decide_eq_false hex']
      rfl
  have hhit : (((thisPptRows ppt p).filter
        (fun r => decide (r.category = l.category ∧
          r.response = l.response))).head?.isSome) =
      decide (∃ x ∈ ppt, x.participant = p ∧ x.category = l.category ∧
        x.response = l.response) := by
    by_cases hex : ∃ x ∈ ppt, x.participant = p ∧ x.category = l.category ∧
        x.response = l.response
    · rw [decide_eq_true hex]
      rw [head_filter_isSome_iff]
      obtain ⟨x, hx, hpx, hcx, hrx⟩ := hex
      exact ⟨x, mem_thisPptRows hx hpx, decide_eq_true ⟨hcx, hrx⟩⟩
    · rw [decide_eq_false hex]
      rw [← Bool.not_eq_true, head_filter_isSome_iff]
      rintro ⟨x, hx, hpx⟩
      obtain ⟨hx1, hx2⟩ := thisPpt_participant hx
      obtain ⟨hcx, hrx⟩ := of_decide_eq_true hpx
      exact hex ⟨x, hx1, hx2, hcx, hrx⟩
  simp only [Function.comp]
  rw [hsaw, hhit]

theorem foldl_addHitColumns_eq_map {ppt : List RawRow}
    (hppt : ppt.Pairwise (fun a b => pptKey3 a ≠ pptKey3 b)) (ps : List Int)
    (data : List DataRow) :
    ps.foldl (fun d p => addHitColumns ppt p d) data =
      data.map (fun l =>
        { l with
          sawCategory := l.sawCategory ++ ps.map (fun p =>
            (p, decide (∃ x ∈ ppt, x.participant = p ∧ x.category = l.category)))
          responseHit := l.responseHit ++ ps.map (fun p =>
            (p, decide (∃ x ∈ ppt, x.participant = p ∧ x.category = l.category ∧
              x.response = l.response))) }) := by
  induction ps generalizing data with
  | nil => simp
  | cons p ps ih =>
    rw [List.foldl_cons, addHitColumns_eq_map hppt p data, ih, List.map_map]
    refine List.map_congr_left ?_
    intro l hl
    simp only [Function.comp, List.map_cons, List.append_assoc,
      List.singleton_append]

/-! ### The closed form of the aggregated table -/

theorem groupLookup_eq_none {R κ β : Type} [DecidableEq κ] {key : R → κ}
    {agg : List R → β} {rows : List R} {k : κ}
    (h : ¬ ∃ r ∈ rows, key r = k) : groupLookup key agg rows k = none := by
  unfold groupLookup
  rw [groupbyAgg_filter_eq_nil h]
  rfl

theorem groupLookup_eq_some {R κ β : Type} [DecidableEq κ] {key : R → κ}
    {agg : List R → β} {rows : List R} {k : κ}
    (h : ∃ r ∈ rows, key r = k) :
    groupLookup key agg rows k =
      some (agg (rows.filter (fun r => decide (key r = k)))) := by
  unfold groupLookup
  rw [groupbyAgg_filter_eq_single h]
  rfl

theorem processCollapsedData_eq_map (ppt : List RawRow) (rt : List RTRow)
    (participants : List Int)
    (hppt : ppt.Pairwise (fun a b => pptKey3 a ≠ pptKey3 b)) :
    processCollapsedData ppt rt participants =
      (dropDupsBy pairKey ppt).map (collapsedRow ppt rt participants) := by
  unfold processCollapsedData
  rw [mergeLeft_eq_map _ (fun l => groupbyAgg_filter_length_le_one),
    mergeLeft_eq_map _ (fun l => groupbyAgg_filter_length_le_one),
    mergeLeft_eq_map _ (fun l => groupbyAgg_filter_length_le_one),
    mergeLeft_eq_map _ (fun l => groupbyAgg_filter_length_le_one),
    mergeLeft_eq_map _ (fun l => groupbyAgg_filter_length_le_one),
    List.map_map, List.map_map, List.map_map, List.map_map, List.map_map,
    foldl_addHitColumns_eq_map hppt participants, List.map_map]
  rfl

/-! ### Running the constructor -/

theorem cpInit_of_lt (fp : String) (m : Int) (u : Bool) (raw : List RawRow)
    (rt : List RTRow) (s : FSState) (hm : m < 1) :
    cpInit fp m u raw rt s =
      (.error .invalidArgument,
       if savedCacheVersionValid s fp then s else clearSavedCache s) := by
  simp only [cpInit]
  rw [if_pos hm]

theorem cpInit_fresh (fp : String) (m : Int) (raw : List RawRow)
    (rt : List RTRow) (s : FSState) (hm : ¬ m < 1) :
    cpInit fp m false raw rt s =
      (.ok (freshResult m raw rt),
       saveCache (if savedCacheVersionValid s fp then s else clearSavedCache s)
         (fullData raw rt) fp) := by
  simp only [cpInit]
  rw [if_neg hm]
  rfl

theorem couldLoadCache_clear (s : FSState) :
    couldLoadCache (clearSavedCache s) = false := by
  unfold clearSavedCache couldLoadCache
  cases hd : s.cacheData <;> simp [hd]

theorem cpInit_mismatch_recomputes (fp : String) (m : Int) (raw : List RawRow)
    (rt : List RTRow) (s : FSState) (hm : ¬ m < 1)
    (hv : savedCacheVersionValid s fp = false) :
    cpInit fp m true raw rt s =
      (.ok (freshResult m raw rt),
       saveCache (clearSavedCache s) (fullData raw rt) fp) := by
  simp only [cpInit]
  rw [if_neg hm, hv]
  simp only [Bool.false_eq_true, if_false]
  rw [couldLoadCache_clear s]
  rfl

/-! ### Uniqueness of (category, response) in the aggregated table -/

theorem dataKey_ne_iff {a b : DataRow} :
    dataKey a ≠ dataKey b ↔ (a.category ≠ b.category ∨ a.response ≠ b.response) := by
  unfold dataKey
  rw [Ne, Prod.mk.injEq, not_and_or]

theorem fullData_pairwise (raw : List RawRow) (rt : List RTRow) :
    (fullData raw rt).Pairwise (fun a b => dataKey a ≠ dataKey b) := by
  unfold fullData
  rw [processCollapsedData_eq_map _ _ _ (processParticipantData_pairwise raw),
    List.pairwise_map]
  exact pairwise_dropDupsBy pairKey _

theorem mem_freshResult_data {m : Int} {raw : List RawRow} {rt : List RTRow}
    {row : DataRow} :
    row ∈ (freshResult m raw rt).data ↔
      (row ∈ fullData raw rt ∧ m ≤ row.prodFreq) := by
  unfold freshResult
  simp [List.mem_filter]

theorem mem_fullData {raw : List RawRow} {rt : List RTRow} {row : DataRow}
    (h : row ∈ fullData raw rt) :
    ∃ r ∈ dropDupsBy pairKey (processParticipantData raw),
      row = collapsedRow (processParticipantData raw) rt (participantsOf raw) r := by
  unfold fullData at h
  rw [processCollapsedData_eq_map _ _ _ (processParticipantData_pairwise raw)]
    at h
  obtain ⟨r, hr, rfl⟩ := List.mem_map.mp h
  exact ⟨r, hr, rfl⟩

/-! ### The query facade -/

theorem mem_sortedLabels {l : List String} {c : String} :
    c ∈ sortedLabels l ↔ c ∈ l := by
  unfold sortedLabels
  rw [List.mem_insertionSort strLE]
  constructor
  · intro h
    exact mem_of_mem_dropDupsFrom h
  · intro h
    obtain ⟨b, hb, hbk⟩ := @exists_mem_dropDupsBy _ _ id _ _ _ h
    have hbc : b = c := hbk
    exact hbc ▸ hb

theorem responsesForCategory_error_iff (cp : CPResult) (c : String)
    (swo : Bool) (sortBy : DataRow → ℚ) (usm fu : Bool) :
    responsesForCategory cp c swo sortBy usm fu = .error .categoryNotFound ↔
      c ∉ (if usm then cp.categoryLabelsSensorimotor else cp.categoryLabels) := by
  unfold responsesForCategory
  cases usm
  · simp only [Bool.false_eq_true, if_false]
    by_cases h : c ∈ cp.categoryLabels
    · simp [h]
    · simp [h]
  · simp only [if_true]
    by_cases h : c ∈ cp.categoryLabelsSensorimotor
    · simp [h]
    · simp [h]

theorem responsesForCategory_ok {cp : CPResult} {c : String} {swo : Bool}
    {sortBy : DataRow → ℚ} {usm fu : Bool} {out : List String}
    (h : responsesForCategory cp c swo sortBy usm fu = .ok out) :
    out = responsesList cp.data c swo sortBy usm fu := by
  unfold responsesForCategory at h
  cases usm
  · simp only [Bool.false_eq_true, if_false] at h
    split at h
    · cases h
      rfl
    · exact absurd h (by simp)
  · simp only [if_true] at h
    split at h
    · cases h
      rfl
    · exact absurd h (by simp)

theorem mem_baseResponses {data : List DataRow} {c : String}
    {sortBy : DataRow → ℚ} {usm : Bool} {resp : String}
    (h : resp ∈ baseResponses data c sortBy usm) :
    ∃ row ∈ data, (if usm then row.smCategory else row.category) = c ∧
      projectResponse usm row = resp := by
  unfold baseResponses at h
  obtain ⟨row, hrow, rfl⟩ := List.mem_map.mp h
  unfold filteredSortedRows at hrow
  have h2 := (List.mem_insertionSort (colLE sortBy)).mp hrow
  obtain ⟨h3, h4⟩ := List.mem_filter.mp h2
  exact ⟨row, h3, of_decide_eq_true h4, rfl⟩

theorem mem_swoResponses {data : List DataRow} {c : String} {swo : Bool}
    {sortBy : DataRow → ℚ} {usm : Bool} {resp : String}
    (h : resp ∈ swoResponses data c swo sortBy usm) :
    resp ∈ baseResponses data c sortBy usm := by
  unfold swoResponses at h
  split at h
  · exact (List.filter_sublist _).mem h
  · exact h

theorem mem_responsesList {data : List DataRow} {c : String} {swo : Bool}
    {sortBy : DataRow → ℚ} {usm fu : Bool} {resp : String}
    (h : resp ∈ responsesList data c swo sortBy usm fu) :
    ∃ row ∈ data, (if usm then row.smCategory else row.category) = c ∧
      projectResponse usm row = resp := by
  unfold responsesList at h
  have h' : resp ∈ swoResponses data c swo sortBy usm := by
    split at h
    · unfold unique dropDupsBy at h
      exact mem_of_mem_dropDupsFrom h
    · exact h
  exact mem_baseResponses (mem_swoResponses h')

theorem filteredSortedRows_perm (data : List DataRow) (c : String)
    (sortBy : DataRow → ℚ) (usm : Bool) :
    (filteredSortedRows data c sortBy usm).Perm
      (data.filter (fun r =>
        decide ((if usm then r.smCategory else r.category) = c))) :=
  List.perm_insertionSort _ _

theorem filteredSortedRows_sorted (data : List DataRow) (c : String)
    (sortBy : DataRow → ℚ) (usm : Bool) :
    (filteredSortedRows data c sortBy usm).Pairwise
      (fun a b => sortBy a ≤ sortBy b) :=
  List.sorted_insertionSort (colLE sortBy) _

theorem filteredSortedRows_spec (data : List DataRow) (c : String)
    (sortBy : DataRow → ℚ) (usm : Bool) :
    sortValuesSpec sortBy
      (data.filter (fun r =>
        decide ((if usm then r.smCategory else r.category) = c)))
      (filteredSortedRows data c sortBy usm) :=
  ⟨filteredSortedRows_sorted data c sortBy usm,
   filteredSortedRows_perm data c sortBy usm⟩

theorem indexOf_lt_of_pair_sublist_dropDupsFrom {α : Type} [DecidableEq α]
    {l seen : List α} {s t : α}
    (h : [s, t] <+ dropDupsFrom id seen l) : l.indexOf s < l.indexOf t := by
  induction l generalizing seen with
  | nil => simp [dropDupsFrom] at h
  | cons x xs ih =>
    rw [dropDupsFrom] at h
    by_cases hx : (id x : α) ∈ seen
    · rw [if_pos hx] at h
      have hs : s ∈ dropDupsFrom id seen xs :=
        h.subset (List.mem_cons_self s _)
      have ht : t ∈ dropDupsFrom id seen xs :=
        h.subset (List.mem_cons_of_mem _ (List.mem_cons_self t _))
      have hxs : x ≠ s := fun he =>
        key_not_seen_of_mem_dropDupsFrom hs (he ▸ hx)
      have hxt : x ≠ t := fun he =>
        key_not_seen_of_mem_dropDupsFrom ht (he ▸ hx)
      rw [List.indexOf_cons_ne _ hxs, List.indexOf_cons_ne _ hxt]
      exact Nat.succ_lt_succ (ih h)
    · rw [if_neg hx] at h
      cases h with
      | cons _ h' =>
        have hs : s ∈ dropDupsFrom id (id x :: seen) xs :=
          h'.subset (List.mem_cons_self s _)
        have ht : t ∈ dropDupsFrom id (id x :: seen) xs :=
          h'.subset (List.mem_cons_of_mem _ (List.mem_cons_self t _))
        have hxs : x ≠ s := fun he =>
          key_not_seen_of_mem_dropDupsFrom hs (by simp [he])
        have hxt : x ≠ t := fun he =>
          key_not_seen_of_mem_dropDupsFrom ht (by simp [he])
        rw [List.indexOf_cons_ne _ hxs, List.indexOf_cons_ne _ hxt]
        exact Nat.succ_lt_succ (ih h')
      | cons₂ _ h' =>
        have ht : t ∈ dropDupsFrom id (id s :: seen) xs :=
          h'.subset (List.mem_cons_self t _)
        have hst : s ≠ t := fun he =>
          key_not_seen_of_mem_dropDupsFrom ht (by simp [he])
        rw [List.indexOf_cons_self, List.indexOf_cons_ne _ hst]
        exact Nat.succ_pos _

theorem indexOf_lt_of_pair_sublist_nodup {α : Type} [DecidableEq α]
    {l : List α} {s t : α} (hnd : l.Nodup) (h : [s, t] <+ l) :
    l.indexOf s < l.indexOf t := by
  induction l with
  | nil => exact absurd (List.eq_nil_of_sublist_nil h) (by simp)
  | cons x xs ih =>
    obtain ⟨hx, hnd'⟩ := List.pairwise_cons.mp hnd
    cases h with
    | cons _ h' =>
      have hs : s ∈ xs := h'.subset (List.mem_cons_self s _)
      have ht : t ∈ xs := h'.subset (List.mem_cons_of_mem _
        (List.mem_cons_self t _))
      rw [List.indexOf_cons_ne _ (hx s hs), List.indexOf_cons_ne _ (hx t ht)]
      exact Nat.succ_lt_succ (ih hnd' h')
    | cons₂ _ h' =>
      have ht : t ∈ xs := h'.subset (List.mem_cons_self t _)
      rw [List.indexOf_cons_self, List.indexOf_cons_ne _ (hx t ht)]
      exact Nat.succ_pos _

theorem lookup_map_pair {β : Type} {ps : List Int} (g : Int → β) {p : Int}
    (hp : p ∈ ps) :
    List.lookup p (ps.map (fun q => (q, g q))) = some (g p) := by
  induction ps with
  | nil => simp at hp
  | cons q t ih =>
    rw [List.map_cons]
    by_cases hq : p = q
    · subst hq
      simp [List.lookup]
    · have hbeq : (p == q) = false := beq_eq_false_iff_ne.mpr hq
      rcases List.mem_cons.mp hp with rfl | hp'
      · exact absurd rfl hq
      · simp only [List.lookup, hbeq]
        exact ih hp'

/-! ### The trimmed Mean zRT column -/

theorem centralRT_filter_eq (rt : List RTRow) (c resp : String) :
    (centralRTRows rt).filter (fun x => decide (rtKey x = (c, resp))) =
      rt.filter (fun x =>
        decide (x.category = c ∧ x.response = resp ∧ |x.zscorePerPt| ≤ 3)) := by
  unfold centralRTRows
  rw [List.filter_filter]
  apply List.filter_congr
  intro x hx
  rw [← Bool.decide_and]
  apply decide_eq_decide.mpr
  unfold rtKey zrtOutliersLimit
  rw [Prod.mk.injEq, abs_le]
  constructor
  · rintro ⟨⟨h1, h2⟩, h3, h4⟩
    exact ⟨h1, h2, h4, h3⟩
  · rintro ⟨h1, h2, h3, h4⟩
    exact ⟨⟨h1, h2⟩, h4, h3⟩

theorem collapsedRow_meanZRT_eq (ppt : List RawRow) (rt : List RTRow)
    (parts : List Int) (r : RawRow) :
    (collapsedRow ppt rt parts r).meanZRT =
      (if trimmedZScores rt r.category r.response = [] then none
       else some ((trimmedZScores rt r.category r.response).sum /
         (trimmedZScores rt r.category r.response).length)) := by
  show groupLookup rtKey (fun rs => ratMean (rs.map (·.zscorePerPt)))
      (centralRTRows rt) (r.category, r.response) = _
  by_cases hex : ∃ x ∈ centralRTRows rt, rtKey x = (r.category, r.response)
  · rw [groupLookup_eq_some hex]
    have hfe := centralRT_filter_eq rt r.category r.response
    have hne : trimmedZScores rt r.category r.response ≠ [] := by
      obtain ⟨x, hx, hkx⟩ := hex
      have hmem : x ∈ (centralRTRows rt).filter
          (fun x => decide (rtKey x = (r.category, r.response))) :=
        List.mem_filter.mpr ⟨hx, decide_eq_true hkx⟩
      rw [hfe] at hmem
      unfold trimmedZScores
      intro hnil
      rw [List.map_eq_nil] at hnil
      rw [hnil] at hmem
      exact absurd hmem (List.not_mem_nil x)
    rw [if_neg hne]
    unfold trimmedZScores
    rw [← hfe, ratMean_eq]
  · rw [groupLookup_eq_none hex]
    have hnil : trimmedZScores rt r.category r.response = [] := by
      unfold trimmedZScores
      rw [← centralRT_filter_eq rt r.category r.response]
      rw [List.filter_eq_nil_iff.mpr, List.map_nil]
      intro x hx
      simp only [decide_eq_true_eq]
      intro hkx
      exact hex ⟨x, hx, hkx⟩
    rw [if_pos hnil]

/-! ### The cache protocol -/

theorem tryLoad_save (s : FSState) (T : List DataRow) (fp : String) :
    tryLoad (saveCache s T fp) fp = (some T, saveCache s T fp) := by
  simp [tryLoad, saveCache, savedCacheVersionValid, couldLoadCache]

theorem tryLoad_mismatch (s : FSState) (T : List DataRow) {fp fp' : String}
    (h : fp' ≠ fp) :
    tryLoad (saveCache s T fp) fp' = (none, ⟨none, none⟩) := by
  have hne : fp ≠ fp' := fun he => h he.symm
  simp [tryLoad, saveCache, savedCacheVersionValid, couldLoadCache,
    clearSavedCache, hne]

theorem savedCacheVersionValid_false {s : FSState} {fp : String}
    (h : s.cacheVersion ≠ some fp) : savedCacheVersionValid s fp = false := by
  unfold savedCacheVersionValid
  cases hv : s.cacheVersion with
  | none => rfl
  | some v =>
    rw [hv] at h
    have : v ≠ fp := fun he => h (he ▸ rfl)
    simp [this]

theorem tryLoad_of_version_ne {s : FSState} {fp : String}
    (h : s.cacheVersion ≠ some fp) :
    (tryLoad s fp).1 = none ∧
      (s.cacheData.isSome = true → (tryLoad s fp).2 = ⟨none, none⟩) := by
  have hv := savedCacheVersionValid_false h
  simp only [tryLoad, hv, Bool.false_eq_true, if_false]
  rw [couldLoadCache_clear s]
  simp only [Bool.false_eq_true, if_false]
  refine ⟨trivial, ?_⟩
  intro hd
  unfold clearSavedCache couldLoadCache
  rw [if_pos hd]

theorem tryLoad_no_data {s : FSState} (fp : String) (h : s.cacheData = none) :
    (tryLoad s fp).1 = none := by
  have hcl : couldLoadCache s = false := by
    unfold couldLoadCache
    rw [h]
    rfl
  by_cases hv : savedCacheVersionValid s fp
  · simp only [tryLoad, hv, if_true]
    rw [hcl]
    simp
  · simp only [tryLoad, hv, Bool.false_eq_true, if_false]
    rw [couldLoadCache_clear s]
    simp

/-! ## The claims -/

/-- C1: every constructed instance has at most one row per
(category, response) pair in its final aggregated table — no two rows of
`self.data` share identical category and response values; the uniqueness
established by the collapse survives the RT/auxiliary left-joins, the
per-participant hit-rate merges and the production-frequency filter. -/
theorem claim_C1 (fp : String) (m : Int) (raw : List RawRow) (rt : List RTRow)
    (s : FSState) (res : CPResult)
    (h : (cpInit fp m false raw rt s).1 = .ok res) :
    res.data.Pairwise
      (fun a b => a.category ≠ b.category ∨ a.response ≠ b.response) := by
  by_cases hm : m < 1
  · rw [cpInit_of_lt fp m false raw rt s hm] at h
    exact absurd h (by simp)
  · rw [cpInit_fresh fp m raw rt s hm] at h
    replace h : Except.ok (freshResult m raw rt) = Except.ok res := h
    injection h with h
    subst h
    have hp : (freshResult m raw rt).data.Pairwise
        (fun a b => dataKey a ≠ dataKey b) := by
      show ((fullData raw rt).filter _).Pairwise _
      exact (fullData_pairwise raw rt).filter _
    exact hp.imp (fun hab => dataKey_ne_iff.mp hab)

/-- Witness for C1: the table built from the concrete test data has
pairwise-distinct (category, response) pairs. -/
theorem claim_C1_witness :
    testRes.data.Pairwise
      (fun a b => a.category ≠ b.category ∨ a.response ≠ b.response) :=
  claim_C1 "v" 2 testRaw testRT ⟨none, none⟩ testRes rfl

/-- C2: participant processing keeps exactly one row per
(category, response, participant) triple of the cleaned input — the
surviving table contains precisely one row with each such triple
(conjuncts 1, 3 and 5), namely an occurrence whose rank is lowest among
all cleaned rows with that triple (conjunct 4, covering the first row
after the ascending (category, response, participant, rank) sort) — and
leaves the rank of every surviving row untouched, each survivor being
literally one of the cleaned input rows (conjunct 2).  Because the dedup
key includes the participant, rows of distinct participants for the same
(category, response) all survive (conjunct 3 at their triples). -/
theorem claim_C2 (raw : List RawRow) :
    ((processParticipantData raw).Pairwise
      (fun a b => pptKey3 a ≠ pptKey3 b)) ∧
    (∀ r ∈ processParticipantData raw, r ∈ (raw.map fillFRF).map normalizeRow) ∧
    (∀ r' ∈ (raw.map fillFRF).map normalizeRow,
      ∃ r ∈ processParticipantData raw, pptKey3 r = pptKey3 r') ∧
    (∀ r ∈ processParticipantData raw,
      ∀ r' ∈ (raw.map fillFRF).map normalizeRow,
        pptKey3 r' = pptKey3 r → r.rank ≤ r'.rank) ∧
    (∀ r' ∈ (raw.map fillFRF).map normalizeRow,
      ((processParticipantData raw).filter
        (fun x => decide (pptKey3 x = pptKey3 r'))).length = 1) := by
  refine ⟨processParticipantData_pairwise raw,
    fun _ hr => processParticipantData_mem hr,
    fun _ hr' => processParticipantData_complete hr',
    fun _ hr _ hr' hk => processParticipantData_minRank hr hr' hk, ?_⟩
  intro r' hr'
  have hle : ((processParticipantData raw).filter
      (fun x => decide (pptKey3 x = pptKey3 r'))).length ≤ 1 := by
    refine @filter_length_le_one _ _ pptKey3 _
      (processParticipantData_pairwise raw) _ ?_
    intro a b ha hb
    rw [decide_eq_true_eq] at ha hb
    rw [ha, hb]
  obtain ⟨r, hr, hk⟩ := processParticipantData_complete hr'
  have hmem : r ∈ (processParticipantData raw).filter
      (fun x => decide (pptKey3 x = pptKey3 r')) :=
    List.mem_filter.mpr ⟨hr, decide_eq_true hk⟩
  have hpos : 0 < ((processParticipantData raw).filter
      (fun x => decide (pptKey3 x = pptKey3 r'))).length :=
    List.length_pos.mpr (List.ne_nil_of_mem hmem)
  omega

/-- Witness for C2: in the test data participant 1 gives (fruit, apple)
at ranks 1 and 2; the kept occurrence has the lower rank and the
processed table has exactly one row with that triple. -/
theorem claim_C2_witness :
    keptRow.rank ≤ dupRow.rank ∧
    ((processParticipantData testRaw).filter
      (fun x => decide (pptKey3 x = pptKey3 dupRow))).length = 1 :=
  ⟨(claim_C2 testRaw).2.2.2.1 keptRow (by decide) dupRow (by decide)
     (by decide),
   (claim_C2 testRaw).2.2.2.2 dupRow (by decide)⟩

/-- C3: a minimum production frequency below 1 makes construction fail
with the invalid-argument error; otherwise a row is in the final table
exactly when its production frequency reaches the threshold (equality
included), and every response a public query returns comes from a
surviving row, so excluded rows appear in no public query result. -/
theorem claim_C3 (fp : String) (m : Int) (u : Bool) (raw : List RawRow)
    (rt : List RTRow) (s : FSState) :
    (m < 1 → (cpInit fp m u raw rt s).1 = .error .invalidArgument) ∧
    (1 ≤ m → ∀ res, (cpInit fp m false raw rt s).1 = .ok res →
      (∀ row, row ∈ res.data ↔ (row ∈ fullData raw rt ∧ m ≤ row.prodFreq)) ∧
      (∀ c swo sortBy usm fu out,
        responsesForCategory res c swo sortBy usm fu = .ok out →
        ∀ resp ∈ out, ∃ row ∈ res.data, m ≤ row.prodFreq ∧
          projectResponse usm row = resp)) := by
  constructor
  · intro hm
    rw [cpInit_of_lt fp m u raw rt s hm]
  · intro hm res h
    have hm' : ¬ m < 1 := not_lt.mpr hm
    rw [cpInit_fresh fp m raw rt s hm'] at h
    replace h : Except.ok (freshResult m raw rt) = Except.ok res := h
    injection h with h
    subst h
    constructor
    · intro row
      exact mem_freshResult_data
    · intro c swo sortBy usm fu out hout resp hresp
      rw [responsesForCategory_ok hout] at hresp
      obtain ⟨row, hrow, _, hproj⟩ := mem_responsesList hresp
      exact ⟨row, hrow, (mem_freshResult_data.mp hrow).2, hproj⟩

/-- Witness for C3: at threshold 0 construction fails; at the default
threshold 2 the (fruit, banana) row with production frequency exactly 2 is
kept while the (fruit, kiwi) row with production frequency 1 is dropped. -/
theorem claim_C3_witness :
    ((cpInit "v" 0 false testRaw testRT ⟨none, none⟩).1 =
      .error .invalidArgument) ∧
    bananaRow ∈ testRes.data ∧ kiwiRow ∉ testRes.data := by
  refine ⟨(claim_C3 "v" 0 false testRaw testRT ⟨none, none⟩).1 (by decide),
    ?_, ?_⟩
  · exact (((claim_C3 "v" 2 false testRaw testRT ⟨none, none⟩).2 (by decide)
      testRes rfl).1 bananaRow).mpr ⟨by decide, by decide⟩
  · intro hmem
    have h := (((claim_C3 "v" 2 false testRaw testRT ⟨none, none⟩).2
      (by decide) testRes rfl).1 kiwiRow).mp hmem
    exact absurd h.2 (by decide)

/-- C4: in every constructed table, the Mean zRT of a row is the
arithmetic mean of exactly those matching z-scored reaction times whose
absolute value does not exceed the outlier threshold 3 (boundary values
kept, strictly larger magnitudes discarded), and is absent (NaN) when no
z-scores survive the trimming. -/
theorem claim_C4 (fp : String) (m : Int) (raw : List RawRow) (rt : List RTRow)
    (s : FSState) (res : CPResult)
    (h : (cpInit fp m false raw rt s).1 = .ok res)
    (row : DataRow) (hrow : row ∈ res.data) :
    row.meanZRT =
      (if trimmedZScores rt row.category row.response = [] then none
       else some ((trimmedZScores rt row.category row.response).sum /
         (trimmedZScores rt row.category row.response).length)) := by
  by_cases hm : m < 1
  · rw [cpInit_of_lt fp m false raw rt s hm] at h
    exact absurd h (by simp)
  · rw [cpInit_fresh fp m raw rt s hm] at h
    replace h : Except.ok (freshResult m raw rt) = Except.ok res := h
    injection h with h
    subst h
    have h2 := (mem_freshResult_data.mp hrow).1
    obtain ⟨r, _, rfl⟩ := mem_fullData h2
    exact collapsedRow_meanZRT_eq _ rt _ r

/-- Witness for C4: for (fruit, apple) the RT table carries the z-scores
1/2, −1/2, 4, −4; the two outliers are trimmed and Mean zRT is the mean of
[1/2, −1/2], namely 0. -/
theorem claim_C4_witness : appleRow.meanZRT = some 0 := by
  have h := claim_C4 "v" 2 testRaw testRT ⟨none, none⟩ testRes rfl appleRow
    (by decide)
  have hzs : trimmedZScores testRT appleRow.category appleRow.response =
      [mkRat 1 2, mkRat (-1) 2] := by decide
  rw [h, hzs, if_neg (by decide)]
  have h1 : (mkRat 1 2 : ℚ) = 1 / 2 := by
    rw [Rat.mkRat_eq_divInt, Rat.divInt_eq_div]
    norm_num
  have h2 : (mkRat (-1) 2 : ℚ) = -(1 / 2) := by
    rw [Rat.mkRat_eq_divInt, Rat.divInt_eq_div]
    norm_num
  rw [h1, h2]
  norm_num

/-- C5 counterexample: the claim asserts the returned sequence is stably
sorted, so that rows with equal sort values preserve their original row
order.  The program's sort is `sort_values(by=sort_by)` — a single-column
pandas sort with the default quicksort — whose contract `sortValuesSpec`
only fixes a sorted permutation: for the concrete two-row table below with
equal sort values, the order-reversing output satisfies the contract just
as well as the order-preserving one, so the program does not guarantee
that ties preserve original row order. -/
theorem claim_C5_counterexample :
    sortValuesSpec (·.meanRank) [tieRowA, tieRowB] [tieRowB, tieRowA] ∧
    sortValuesSpec (·.meanRank) [tieRowA, tieRowB] [tieRowA, tieRowB] ∧
    [tieRowB, tieRowA] ≠ [tieRowA, tieRowB] :=
  ⟨⟨by decide, List.Perm.swap tieRowA tieRowB []⟩,
   ⟨by decide, List.Perm.refl _⟩,
   by decide⟩

/-- C5 (amended): `responses_for_category` raises CategoryNotFound exactly
when the category is absent from the relevant label list; on success every
returned response is the (relevant) response cell of a row whose
(relevant) category column equals the argument; and (plain variant) the
returned sequence is the projection of a list of rows satisfying the
program's sort contract: a permutation of the category's rows, sorted
ascending by the requested column.  The relative order of rows with equal
sort values is not guaranteed. -/
theorem claim_C5 (cp : CPResult) (c : String) (swo : Bool)
    (sortBy : DataRow → ℚ) (usm fu : Bool) :
    (responsesForCategory cp c swo sortBy usm fu = .error .categoryNotFound ↔
      c ∉ (if usm then cp.categoryLabelsSensorimotor else cp.categoryLabels)) ∧
    (∀ out, responsesForCategory cp c swo sortBy usm fu = .ok out →
      ∀ resp ∈ out, ∃ row ∈ cp.data,
        (if usm then row.smCategory else row.category) = c ∧
        projectResponse usm row = resp) ∧
    (∀ out, responsesForCategory cp c false sortBy usm false = .ok out →
      ∃ rows, sortValuesSpec sortBy
          (cp.data.filter (fun r =>
            decide ((if usm then r.smCategory else r.category) = c))) rows ∧
        out = rows.map (projectResponse usm)) := by
  refine ⟨responsesForCategory_error_iff cp c swo sortBy usm fu, ?_, ?_⟩
  · intro out hout resp hresp
    rw [responsesForCategory_ok hout] at hresp
    exact mem_responsesList hresp
  · intro out hout
    refine ⟨filteredSortedRows cp.data c sortBy usm,
      filteredSortedRows_spec cp.data c sortBy usm, ?_⟩
    rw [responsesForCategory_ok hout]
    unfold responsesList swoResponses baseResponses
    simp [Bool.and_false]

/-- Witness for C5: the response `apple` returned for `fruit` over the
test data comes from a (fruit, apple) row of the table. -/
theorem claim_C5_witness :
    ∃ row ∈ testRes.data,
      (if false then row.smCategory else row.category) = "fruit" ∧
      projectResponse false row = "apple" :=
  (claim_C5 testRes "fruit" false (·.meanRank) false false).2.1 testResponses
    rfl "apple" (by decide)

/-- C6 counterexample: with no cached data file but an orphaned
fingerprint file containing `"A"`, loading under current fingerprint `"B"`
returns absent yet leaves the stale fingerprint file in place — the cache
artifacts are not all deleted, contradicting the claim as stated. -/
theorem claim_C6_counterexample :
    (tryLoad ⟨none, some "A"⟩ "B").1 = none ∧
    (tryLoad ⟨none, some "A"⟩ "B").2 = ⟨none, some "A"⟩ := by decide

/-- C6 (amended): `save` followed by `tryLoad` with the same fingerprint
returns the saved table; `tryLoad` under a different fingerprint, or with
the cached data file missing, returns absent without raising and triggers
full recomputation from source, and it deletes the stale cache artifacts
whenever the cached data file exists — an orphaned fingerprint file
without a data file is left in place. -/
theorem claim_C6_amended (s : FSState) (T : List DataRow) (fp fp' : String)
    (raw : List RawRow) (rt : List RTRow) (m : Int) :
    (tryLoad (saveCache s T fp) fp = (some T, saveCache s T fp)) ∧
    (fp' ≠ fp → tryLoad (saveCache s T fp) fp' = (none, ⟨none, none⟩)) ∧
    (s.cacheVersion ≠ some fp → (tryLoad s fp).1 = none ∧
      (s.cacheData.isSome = true → (tryLoad s fp).2 = ⟨none, none⟩)) ∧
    (s.cacheData = none → (tryLoad s fp).1 = none) ∧
    (savedCacheVersionValid s fp = false → 1 ≤ m →
      (cpInit fp m true raw rt s).1 = .ok (freshResult m raw rt)) := by
  refine ⟨tryLoad_save s T fp, fun hne => tryLoad_mismatch s T hne,
    fun hv => tryLoad_of_version_ne hv, fun hd => tryLoad_no_data fp hd, ?_⟩
  intro hv hm
  rw [cpInit_mismatch_recomputes fp m raw rt s (not_lt.mpr hm) hv]

/-- Witness for C6 (amended): a concrete save/load round trip, a concrete
mismatched load, and a concrete mismatched construction that recomputes
from source. -/
theorem claim_C6_witness :
    (tryLoad (saveCache ⟨none, none⟩ [] "v") "v" =
      (some [], saveCache ⟨none, none⟩ [] "v")) ∧
    (tryLoad (saveCache ⟨none, none⟩ [] "v") "w" = (none, ⟨none, none⟩)) ∧
    ((cpInit "v" 2 true testRaw testRT ⟨some [], some "OLD"⟩).1 =
      .ok (freshResult 2 testRaw testRT)) :=
  ⟨(claim_C6_amended ⟨none, none⟩ [] "v" "w" testRaw testRT 2).1,
   (claim_C6_amended ⟨none, none⟩ [] "v" "w" testRaw testRT 2).2.1 (by decide),
   (claim_C6_amended ⟨some [], some "OLD"⟩ [] "v" "w" testRaw testRT 2).2.2.2.2
     (by decide) (by decide)⟩

/-- C7: for every known participant id and every row of the final table,
the `saw category` cell is the boolean (never null) of whether that
participant has some cleaned participant-table row for the row's category,
and the `response hit` cell is the boolean of whether the participant has
a cleaned row for exactly that (category, response) pair. -/
theorem claim_C7 (fp : String) (m : Int) (raw : List RawRow) (rt : List RTRow)
    (s : FSState) (res : CPResult)
    (h : (cpInit fp m false raw rt s).1 = .ok res)
    (p : Int) (hp : p ∈ res.participants) (row : DataRow)
    (hrow : row ∈ res.data) :
    ((List.lookup p row.sawCategory =
        some (decide (∃ r ∈ processParticipantData raw,
          r.participant = p ∧ r.category = row.category))) ∧
     (List.lookup p row.sawCategory = some true ↔
        ∃ r ∈ processParticipantData raw,
          r.participant = p ∧ r.category = row.category)) ∧
    ((List.lookup p row.responseHit =
        some (decide (∃ r ∈ processParticipantData raw, r.participant = p ∧
          r.category = row.category ∧ r.response = row.response))) ∧
     (List.lookup p row.responseHit = some true ↔
        ∃ r ∈ processParticipantData raw, r.participant = p ∧
          r.category = row.category ∧ r.response = row.response)) := by
  by_cases hm : m < 1
  · rw [cpInit_of_lt fp m false raw rt s hm] at h
    exact absurd h (by simp)
  · rw [cpInit_fresh fp m raw rt s hm] at h
    replace h : Except.ok (freshResult m raw rt) = Except.ok res := h
    injection h with h
    subst h
    have h2 := (mem_freshResult_data.mp hrow).1
    obtain ⟨r, _, rfl⟩ := mem_fullData h2
    have hp' : p ∈ participantsOf raw := hp
    have hs : List.lookup p
        (collapsedRow (processParticipantData raw) rt (participantsOf raw)
          r).sawCategory =
        some (decide (∃ x ∈ processParticipantData raw,
          x.participant = p ∧ x.category = r.category)) :=
      lookup_map_pair (fun q => decide (∃ x ∈ processParticipantData raw,
        x.participant = q ∧ x.category = r.category)) hp'
    have hh : List.lookup p
        (collapsedRow (processParticipantData raw) rt (participantsOf raw)
          r).responseHit =
        some (decide (∃ x ∈ processParticipantData raw, x.participant = p ∧
          x.category = r.category ∧ x.response = r.response)) :=
      lookup_map_pair (fun q => decide (∃ x ∈ processParticipantData raw,
        x.participant = q ∧ x.category = r.category ∧
        x.response = r.response)) hp'
    refine ⟨⟨hs, ?_⟩, hh, ?_⟩
    · rw [hs]
      simp only [Option.some.injEq, decide_eq_true_eq]
      exact Iff.rfl
    · rw [hh]
      simp only [Option.some.injEq, decide_eq_true_eq]
      exact Iff.rfl

/-- Witness for C7: in the test data participant 7 produced `apple` for
`fruit` but never `banana`; on the (fruit, banana) row the
`saw category` cell for 7 is true and the `response hit` cell is false. -/
theorem claim_C7_witness :
    List.lookup 7 bananaRow.sawCategory = some true ∧
    List.lookup 7 bananaRow.responseHit = some false := by
  have h := claim_C7 "v" 2 testRaw testRT ⟨none, none⟩ testRes rfl 7
    (by decide) bananaRow (by decide)
  refine ⟨?_, ?_⟩
  · rw [h.1.1]
    decide
  · rw [h.2.1]
    decide

/-- C8: the claim says cells of the Category and Response columns that
exactly match a key of the substitution map are replaced by the mapped
value before deduplication; the preferences declare the map (with, e.g.,
`yogurt ↦ yoghurt`), but the processing pipeline never applies it — a raw
row whose response is `yogurt` still carries `yogurt` after participant
processing. -/
theorem claim_C8 :
    (("yogurt", "yoghurt") ∈ specificSubstitutions) ∧
    (∃ r ∈ processParticipantData
        [⟨1, 1, 1, 1, "sport", "yogurt", "sport sm", "yoghurt sm", 2, 1,
          none⟩],
      r.response = "yogurt") := by decide

theorem mem_filteredSortedRows {data : List DataRow} {c : String}
    {sortBy : DataRow → ℚ} {usm : Bool} {row : DataRow}
    (h : row ∈ filteredSortedRows data c sortBy usm) :
    row ∈ data ∧ (if usm then row.smCategory else row.category) = c := by
  unfold filteredSortedRows at h
  have h2 := (List.mem_insertionSort (colLE sortBy)).mp h
  obtain ⟨h3, h4⟩ := List.mem_filter.mp h2
  exact ⟨h3, of_decide_eq_true h4⟩

/-- C9: when the final table has unique (category, response) pairs, the
list returned by `responses_for_category` with `force_unique` set contains
no duplicate strings for any flag combination, and each surviving element
appears at the position of its first occurrence in the non-deduplicated
sequence: the result is a sublist of the non-deduplicated list with the
same members, and any two survivors are ordered by the positions of their
first occurrences in the non-deduplicated list (`indexOf` finds the first
occurrence), which pins the keep-first, first-seen-order deduplication. -/
theorem claim_C9 (cp : CPResult)
    (hud : cp.data.Pairwise (fun a b => dataKey a ≠ dataKey b))
    (c : String) (swo : Bool) (sortBy : DataRow → ℚ) (usm : Bool)
    (out outND : List String)
    (hout : responsesForCategory cp c swo sortBy usm true = .ok out)
    (houtND : responsesForCategory cp c swo sortBy usm false = .ok outND) :
    out.Nodup ∧ out <+ outND ∧ (∀ s, s ∈ outND ↔ s ∈ out) ∧
    (∀ s t, [s, t] <+ out → outND.indexOf s < outND.indexOf t) := by
  have hout' := responsesForCategory_ok hout
  have houtND' := responsesForCategory_ok houtND
  subst hout' houtND'
  cases usm
  · have hnd : (baseResponses cp.data c sortBy false).Nodup := by
      have hpw : ((filteredSortedRows cp.data c sortBy false).map
          (projectResponse false)).Pairwise (fun a b => a ≠ b) := by
        rw [List.pairwise_map]
        have hfs : (filteredSortedRows cp.data c sortBy false).Pairwise
            (fun a b => dataKey a ≠ dataKey b) := by
          refine (List.Perm.pairwise_iff ?_
            (filteredSortedRows_perm cp.data c sortBy false)).mpr
            (hud.filter _)
          exact fun h heq => h heq.symm
        refine hfs.imp_of_mem ?_
        intro a b ha hb hne heq
        apply hne
        have hca := (mem_filteredSortedRows ha).2
        have hcb := (mem_filteredSortedRows hb).2
        simp only [Bool.false_eq_true, if_false] at hca hcb
        have hr : a.response = b.response := heq
        unfold dataKey
        rw [hca, hcb, hr]
      exact hpw
    have hndswo : (swoResponses cp.data c swo sortBy false).Nodup := by
      unfold swoResponses
      split
      · exact hnd.filter _
      · exact hnd
    simp only [responsesList, Bool.false_and, Bool.false_eq_true, if_false]
    exact ⟨hndswo, List.Sublist.refl _, fun s => by trivial,
      fun s t hst => indexOf_lt_of_pair_sublist_nodup hndswo hst⟩
  · simp only [responsesList, Bool.and_true, Bool.and_false,
      Bool.false_eq_true, if_false, if_true]
    refine ⟨?_, ?_, ?_, ?_⟩
    · exact pairwise_dropDupsBy id _
    · exact dropDupsBy_sublist id _
    · intro s
      constructor
      · intro hs
        obtain ⟨b, hb, hbk⟩ := @exists_mem_dropDupsBy _ _ id _ _ _ hs
        have hbs : b = s := hbk
        exact hbs ▸ hb
      · intro hs
        exact mem_of_mem_dropDupsFrom hs
    · intro s t hst
      exact indexOf_lt_of_pair_sublist_dropDupsFrom hst

/-- Witness for C9: the deduplicated sensorimotor responses for
`fruit sm` over the test data have no duplicates and keep the first-seen
order of the non-deduplicated list, with survivors ordered by their first
occurrences. -/
theorem claim_C9_witness :
    testResponsesSM.Nodup ∧ testResponsesSM <+ testResponsesSMND ∧
    (∀ s, s ∈ testResponsesSMND ↔ s ∈ testResponsesSM) ∧
    (∀ s t, [s, t] <+ testResponsesSM →
      testResponsesSMND.indexOf s < testResponsesSMND.indexOf t) :=
  claim_C9 testRes (by decide) "fruit sm" false (·.meanRank) true
    testResponsesSM testResponsesSMND rfl rfl

/-- C10: construction checks the cache version and clears a stale cache
before validating its arguments — with any minimum production frequency
below 1 the invalid-argument error is raised, but a pre-existing cache
whose stored fingerprint mismatches the current one has already been
deleted by then. -/
theorem claim_C10 (fp : String) (m : Int) (u : Bool) (raw : List RawRow)
    (rt : List RTRow) (s : FSState) (hm : m < 1) :
    ((cpInit fp m u raw rt s).1 = .error .invalidArgument) ∧
    ((cpInit fp m u raw rt s).2 =
      (if savedCacheVersionValid s fp then s else clearSavedCache s)) ∧
    (savedCacheVersionValid s fp = false → s.cacheData.isSome = true →
      (cpInit fp m u raw rt s).2 = ⟨none, none⟩) := by
  rw [cpInit_of_lt fp m u raw rt s hm]
  refine ⟨rfl, rfl, ?_⟩
  intro hv hd
  rw [hv]
  simp only [Bool.false_eq_true, if_false]
  unfold clearSavedCache couldLoadCache
  rw [if_pos hd]

/-- Witness for C10: constructing with threshold 0 over a stale cache
(fingerprint "OLD" vs current "v") raises the invalid-argument error and
has already deleted both cache files. -/
theorem claim_C10_witness :
    ((cpInit "v" 0 true testRaw testRT ⟨some [], some "OLD"⟩).1 =
      .error .invalidArgument) ∧
    ((cpInit "v" 0 true testRaw testRT ⟨some [], some "OLD"⟩).2 =
      ⟨none, none⟩) :=
  ⟨(claim_C10 "v" 0 true testRaw testRT ⟨some [], some "OLD"⟩ (by decide)).1,
   (claim_C10 "v" 0 true testRaw testRT ⟨some [], some "OLD"⟩ (by decide)).2.2
     (by decide) (by decide)⟩

end CatProd
